import Mathlib

/-!
Verification development for the QIA regression-test repository.

The embedding below translates the Python sources into Lean:

* `src/lib/backtest/strategy_two.py`   → `backtest_strategy_two`
* `src/lib/backtest/strategy_three.py` → `backtest_strategy_three`
* `src/lib/performance_analysis.py`    → `calculate_strategy_one_performance`
* `src/lib/backtest/backtest_adjusted.py` (`sensitivity_analysis`)
                                       → `redraw_bb`, `sensitivity_row`

Python floats are modelled as exact rationals (`ℚ`); pandas NaN cells
(moving-average warm-up rows) are modelled as `none : Option ℚ`, and the
Python comparison semantics `NaN < x = False`, `NaN > x = False` is modelled
by `oLT` / `oGT`.  A pandas `DataFrame` column is a Lean list; a column
that was never created is `none : Option (List _)`.
-/

/-- One row of the input price table.  `open_price` models the source column
開盤價 and `close_price` the column 收盤價 (the strategies use no other price
columns). -/
structure PriceRow where
  open_price : ℚ
  close_price : ℚ
deriving DecidableEq, Repr, Inhabited

/-- Python `a < b` on possibly-NaN floats: any comparison with NaN is `False`.
`none` models NaN. -/
def oLT : Option ℚ → Option ℚ → Bool
  | some a, some b => decide (a < b)
  | _, _ => false

/-- Python `a > b` on possibly-NaN floats: any comparison with NaN is `False`. -/
def oGT : Option ℚ → Option ℚ → Bool
  | some a, some b => decide (b < a)
  | _, _ => false

/-- Modelled from the spec: the repository imports `calc_ma` from
`lib.technical_indicators`, a file not present under `src/`.  Per the spec
(§1, §2, §6) it is a pure "rolling-average style transform" appending a
column named `MA{period}`: the moving average of the close price over the
trailing `period` rows.  Rows with fewer than `period` observations have no
average yet (pandas NaN), modelled as `none`. -/
def maList (period : ℕ) (closes : List ℚ) : List (Option ℚ) :=
  (List.range closes.length).map fun i =>
    if period ≤ i + 1 ∧ 0 < period then
      some (((closes.drop (i + 1 - period)).take period).sum / period)
    else none

/-- The mutable scalars threaded through each strategy's day loop:
`position` (0 = flat, 1 = long), `avg_cost`, `cum_ret` — exactly the three
loop variables of `strategy_two.py` / `strategy_three.py`. -/
structure SimState where
  position : ℕ
  avg_cost : ℚ
  cum_ret : ℚ
deriving DecidableEq, Repr

/-- The three cells written for one day `i ≥ 1`: `df.at[idx,"ret"]`,
`df.at[idx,"cus"]`, `df.at[idx,"position"]`. -/
structure StepRec where
  ret : ℚ
  cus : ℚ
  pos : ℕ
deriving DecidableEq, Repr

/-- One iteration of the shared day-loop body of `strategy_two.py` (lines
54-94) and `strategy_three.py` (lines 58-91).  Both strategies perform the
same bookkeeping and differ only in the entry/exit conditions, passed here
as the booleans `doEntry` / `doExit`:
entry is considered only when flat; the exit test runs afterwards on the
(possibly just-updated) position; then the day's `ret`/`cus`/`position`
cells are recorded. -/
def simStep (o c : ℚ) (doEntry doExit : Bool) (st : SimState) : StepRec × SimState :=
  let p1 : ℕ := if st.position = 0 ∧ doEntry = true then 1 else st.position
  let cost1 : ℚ := if st.position = 0 ∧ doEntry = true then o else st.avg_cost
  if p1 = 1 ∧ doExit = true then
    let r := c - cost1
    let cum := st.cum_ret + r
    (⟨r, cum, 0⟩, ⟨0, 0, cum⟩)
  else
    (⟨0, if p1 = 1 then st.cum_ret + (c - cost1) else st.cum_ret, p1⟩,
     ⟨p1, cost1, st.cum_ret⟩)

/-- The `for i in range(1, L)` loop shared by both strategies, with the
entry/exit conditions abstracted as predicates on the day index.  `fuel` is
the number of remaining iterations (`L - i` at call time), so the top-level
call uses `fuel = L - 1`, `i = 1`.  Returns the recorded cells for days
`i, i+1, …` together with the final loop state. -/
def runSim (rows : List PriceRow) (en ex : ℕ → Bool) :
    ℕ → ℕ → SimState → List StepRec × SimState
  | 0, _, st => ([], st)
  | fuel + 1, i, st =>
    let row := rows.getD i ⟨0, 0⟩
    let s := simStep row.open_price row.close_price (en i) (ex i) st
    let r := runSim rows en ex fuel (i + 1) s.2
    (s.1 :: r.1, r.2)

/-- Entry condition of strategy two (`strategy_two.py` lines 56-68): only
for `i > 1`, a golden cross between `T-2` and `T-1` — short MA below long MA
at `i-2` and above it at `i-1`. -/
def entryTwo (maS maL : List (Option ℚ)) (i : ℕ) : Bool :=
  decide (1 < i) && oLT (maS.getD (i - 2) none) (maL.getD (i - 2) none)
    && oGT (maS.getD (i - 1) none) (maL.getD (i - 1) none)

/-- Exit condition of strategy two (`strategy_two.py` lines 70-83): the
midpoint of day `i`'s open and close falls below day `i`'s short MA.  A NaN
short MA compares false, as in Python. -/
def exitTwo (rows : List PriceRow) (maS : List (Option ℚ)) (i : ℕ) : Bool :=
  match maS.getD i none with
  | some m =>
    decide (((rows.getD i ⟨0, 0⟩).open_price + (rows.getD i ⟨0, 0⟩).close_price) / 2 < m)
  | none => false

/-- Entry condition of strategy three (`strategy_three.py` lines 59-67):
bullish alignment at `T-1`: short MA > medium MA > long MA. -/
def entryThree (maS maM maL : List (Option ℚ)) (i : ℕ) : Bool :=
  oGT (maS.getD (i - 1) none) (maM.getD (i - 1) none)
    && oGT (maM.getD (i - 1) none) (maL.getD (i - 1) none)

/-- Exit condition of strategy three (`strategy_three.py` lines 70-80):
short MA below medium MA on day `i`. -/
def exitThree (maS maM : List (Option ℚ)) (i : ℕ) : Bool :=
  oLT (maS.getD i none) (maM.getD i none)

/-- The output DataFrame of a strategy backtest.  `rows` are the untouched
input price columns, `ma_cols` the `MA{p}` columns appended by `calc_ma`,
and `ret`/`cus`/`position`/`BH` the columns the backtest itself may append —
`none` when the function returned before creating them (the `L < 2` early
return happens before those columns are initialised). -/
structure BTOutput where
  rows : List PriceRow
  ma_cols : List (ℕ × List (Option ℚ))
  ret : Option (List ℚ)
  cus : Option (List ℚ)
  position : Option (List ℕ)
  BH : Option (List ℚ)
deriving DecidableEq, Repr

/-- The day loop of `backtest_strategy_two` run to completion: recorded
cells for days `1 … L-1` plus the final values of the loop variables. -/
def strategy_two_core (rows : List PriceRow) (short_ma_period long_ma_period : ℕ) :
    List StepRec × SimState :=
  let closes := rows.map (·.close_price)
  runSim rows (entryTwo (maList short_ma_period closes) (maList long_ma_period closes))
    (exitTwo rows (maList short_ma_period closes)) (rows.length - 1) 1 ⟨0, 0, 0⟩

/-- `backtest_strategy_two(df, short_ma_period, long_ma_period)` from
`strategy_two.py`.  Computes the two MA columns, returns early (without the
`ret`/`cus`/`position`/`BH` columns) when `L < 2`, otherwise initialises the
columns to zero and runs the day loop from index 1. -/
def backtest_strategy_two (rows : List PriceRow)
    (short_ma_period long_ma_period : ℕ) : BTOutput :=
  let closes := rows.map (·.close_price)
  let maS := maList short_ma_period closes
  let maL := maList long_ma_period closes
  if rows.length < 2 then
    ⟨rows, [(short_ma_period, maS), (long_ma_period, maL)], none, none, none, none⟩
  else
    let recs := (strategy_two_core rows short_ma_period long_ma_period).1
    ⟨rows, [(short_ma_period, maS), (long_ma_period, maL)],
      some ((0 : ℚ) :: recs.map (·.ret)),
      some ((0 : ℚ) :: recs.map (·.cus)),
      some ((0 : ℕ) :: recs.map (·.pos)),
      some (rows.map fun r => r.close_price - (rows.getD 0 ⟨0, 0⟩).close_price)⟩

/-- The day loop of `backtest_strategy_three` run to completion. -/
def strategy_three_core (rows : List PriceRow) (ma_short ma_medium ma_long : ℕ) :
    List StepRec × SimState :=
  let closes := rows.map (·.close_price)
  runSim rows
    (entryThree (maList ma_short closes) (maList ma_medium closes) (maList ma_long closes))
    (exitThree (maList ma_short closes) (maList ma_medium closes))
    (rows.length - 1) 1 ⟨0, 0, 0⟩

/-- `backtest_strategy_three(df, ma_short, ma_medium, ma_long)` from
`strategy_three.py`. -/
def backtest_strategy_three (rows : List PriceRow)
    (ma_short ma_medium ma_long : ℕ) : BTOutput :=
  let closes := rows.map (·.close_price)
  let maS := maList ma_short closes
  let maM := maList ma_medium closes
  let maL := maList ma_long closes
  if rows.length < 2 then
    ⟨rows, [(ma_short, maS), (ma_medium, maM), (ma_long, maL)], none, none, none, none⟩
  else
    let recs := (strategy_three_core rows ma_short ma_medium ma_long).1
    ⟨rows, [(ma_short, maS), (ma_medium, maM), (ma_long, maL)],
      some ((0 : ℚ) :: recs.map (·.ret)),
      some ((0 : ℚ) :: recs.map (·.cus)),
      some ((0 : ℕ) :: recs.map (·.pos)),
      some (rows.map fun r => r.close_price - (rows.getD 0 ⟨0, 0⟩).close_price)⟩

/-- Running maximum of a series, continuing from accumulated maximum `m`. -/
def cummaxAux (m : ℚ) : List ℚ → List ℚ
  | [] => []
  | x :: xs => max m x :: cummaxAux (max m x) xs

/-- pandas `Series.cummax()`: elementwise running maximum. -/
def cummax : List ℚ → List ℚ
  | [] => []
  | x :: xs => x :: cummaxAux x xs

/-- The inner `maxdrawdown` of `performance_analysis.py` (lines 40-42):
`s = s.cummax() - s; return s.max()`.  pandas `max()` of an empty series is
NaN, modelled as `none`. -/
def maxdrawdown (s : List ℚ) : Option ℚ :=
  (List.zipWith (fun a b => a - b) (cummax s) s).max?

/-- Round a rational to the nearest integer, ties to even — the rounding
CPython uses when formatting (for the values formatted in this development
the decimal expansion is never within a float ulp of a tie, so this agrees
with the float behaviour). -/
def roundHalfEven (q : ℚ) : ℤ :=
  let f : ℤ := ⌊q⌋
  let r : ℚ := q - f
  if r < 1 / 2 then f
  else if 1 / 2 < r then f + 1
  else if f % 2 = 0 then f else f + 1

/-- CPython `f"{q:.2%}"` for a non-negative rational `q`: `q` as a
percentage, two decimal places, trailing `%`. -/
def formatPercent (q : ℚ) : String :=
  let bp : ℕ := (roundHalfEven (q * 10000)).toNat
  let frac : ℕ := bp % 100
  toString (bp / 100) ++ "." ++ (if frac < 10 then "0" ++ toString frac else toString frac)
    ++ "%"

/-- The value of the `賺賠比` (profit/loss ratio) entry: Python stores either
`float("inf")` or a finite float there. -/
inductive PLRatio where
  | inf : PLRatio
  | fin : ℚ → PLRatio
deriving DecidableEq, Repr

/-- One step of the streak scan of `performance_analysis.py` (lines 93-104):
state is (longest win, longest loss, current win, current loss). -/
def streakStep (s : ℕ × ℕ × ℕ × ℕ) (t : ℚ) : ℕ × ℕ × ℕ × ℕ :=
  let cw := if 0 < t then s.2.2.1 + 1 else if t < 0 then 0 else s.2.2.1
  let cl := if 0 < t then 0 else if t < 0 then s.2.2.2 + 1 else s.2.2.2
  (max s.1 cw, max s.2.1 cl, cw, cl)

/-- Longest consecutive winning and losing streaks of a trade list, scanning
in order (`performance_analysis.py` lines 93-104). -/
def streaks (trades : List ℚ) : ℕ × ℕ :=
  let r := trades.foldl streakStep (0, 0, 0, 0)
  (r.1, r.2.1)

/-- The dict returned by `calculate_strategy_one_performance`.  Field names
are English renderings of the source's keys:
`final_equity` = "最終權益 (Mark-to-Market)", `net_realized` = "淨利或淨損 (已實現)",
`mdd` = "最大回撤 (MDD)" (`none` models the NaN that pandas `max()` yields on an
empty curve), `total_profit` = "總獲利 (已實現)", `total_loss` = "總損失 (已實現)",
`total_trades` = "總交易次數", `num_winning_trades` = "賺錢交易次數",
`num_losing_trades` = "虧錢交易次數", `win_rate` = "勝率" (a *string*: the source
stores `f"{win_rate:.2%}"`), `max_profit_trade` = "單次交易最大獲利",
`max_loss_trade` = "單次交易最大損失", `avg_profit` = "獲利交易中的平均獲利",
`avg_loss` = "損失交易中的平均損失", `profit_loss_ratio` = "賺賠比",
`longest_win_streak` = "最長的連續性獲利的次數",
`longest_loss_streak` = "最長的連續性損失的次數". -/
structure PerformanceRecord where
  final_equity : ℚ
  net_realized : ℚ
  mdd : Option ℚ
  total_profit : ℚ
  total_loss : ℚ
  total_trades : ℕ
  num_winning_trades : ℕ
  num_losing_trades : ℕ
  win_rate : String
  max_profit_trade : ℚ
  max_loss_trade : ℚ
  avg_profit : ℚ
  avg_loss : ℚ
  profit_loss_ratio : PLRatio
  longest_win_streak : ℕ
  longest_loss_streak : ℕ
deriving DecidableEq, Repr

/-- Line 34 of `performance_analysis.py`: the realized trade list — the
sub-sequence of non-zero `ret` cells (`dropna` is a no-op in the model,
which has no NaN returns). -/
def tradesOf (ret : List ℚ) : List ℚ := ret.filter (· ≠ 0)

/-- Line 73: `winning_trades = trades[trades > 0]`. -/
def winningOf (ret : List ℚ) : List ℚ := (tradesOf ret).filter (fun t => 0 < t)

/-- Line 74: `losing_trades = trades[trades < 0]`. -/
def losingOf (ret : List ℚ) : List ℚ := (tradesOf ret).filter (fun t => t < 0)

/-- Line 84: `avg_profit = total_profit / num_winning_trades if
num_winning_trades > 0 else 0`. -/
def avgProfitOf (ret : List ℚ) : ℚ :=
  if 0 < (winningOf ret).length then (winningOf ret).sum / (winningOf ret).length else 0

/-- Line 86: `avg_loss = total_loss / num_losing_trades if
num_losing_trades > 0 else 0` (negative whenever there are losing trades). -/
def avgLossOf (ret : List ℚ) : ℚ :=
  if 0 < (losingOf ret).length then (losingOf ret).sum / (losingOf ret).length else 0

/-- Line 81, extended by the zero-trade sentinel of the early-return branch:
the numeric win rate `num_winning_trades / total_trades`, taken as `0` when
there are no trades. -/
def winRateOf (ret : List ℚ) : ℚ :=
  if (tradesOf ret).length = 0 then 0
  else ((winningOf ret).length : ℚ) / ((tradesOf ret).length : ℚ)

/-- `calculate_strategy_one_performance(df)` from `performance_analysis.py`
(lines 21-125).  The function reads only the `ret` and `cus` columns of its
input DataFrame, so the embedding takes those two columns directly.  The
realized trade list is the sub-sequence of non-zero `ret` cells; with no
trades a sentinel record is returned, otherwise the statistics of lines
72-123 are computed. -/
def calculate_strategy_one_performance (ret cus : List ℚ) : PerformanceRecord :=
  let trades := tradesOf ret
  let mdd := maxdrawdown cus
  if trades.length = 0 then
    { final_equity := (cus.getLast?).getD 0
      net_realized := 0
      mdd := mdd
      total_profit := 0
      total_loss := 0
      total_trades := 0
      num_winning_trades := 0
      num_losing_trades := 0
      win_rate := "0.00%"
      max_profit_trade := 0
      max_loss_trade := 0
      avg_profit := 0
      avg_loss := 0
      profit_loss_ratio := PLRatio.fin 0
      longest_win_streak := 0
      longest_loss_streak := 0 }
  else
    let st := streaks trades
    { final_equity := (cus.getLast?).getD 0
      net_realized := trades.sum
      mdd := mdd
      total_profit := (winningOf ret).sum
      total_loss := (losingOf ret).sum
      total_trades := trades.length
      num_winning_trades := (winningOf ret).length
      num_losing_trades := (losingOf ret).length
      win_rate := formatPercent (((winningOf ret).length : ℚ) / (trades.length : ℚ))
      max_profit_trade := ((winningOf ret).max?).getD 0
      max_loss_trade := ((losingOf ret).min?).getD 0
      avg_profit := avgProfitOf ret
      avg_loss := avgLossOf ret
      profit_loss_ratio :=
        if avgLossOf ret = 0 then PLRatio.inf
        else PLRatio.fin |avgProfitOf ret / avgLossOf ret|
      longest_win_streak := st.1
      longest_loss_streak := st.2 }

/-- The slow-period re-draw of `sensitivity_analysis` (`backtest_adjusted.py`
lines 57-59): `bb_p = randint(...); while bb_p <= ma_p: bb_p = randint(...)`.
The successive results of `random.randint(*param_ranges['bb_period'])` are
modelled as an oracle stream `g`.  `redraw_bb ma_p g fuel k` inspects draws
`g k, g (k+1), …` and returns the first one exceeding `ma_p`; it returns
`none` if none of the next `fuel` draws does — at that point the Python loop
is still running, since it has no attempt bound. -/
def redraw_bb (ma_p : ℤ) (g : ℕ → ℤ) : ℕ → ℕ → Option ℤ
  | 0, _ => none
  | fuel + 1, k => if g k ≤ ma_p then redraw_bb ma_p g fuel (k + 1) else some (g k)

/-- The re-draw loop terminates on draw stream `g`: some finite number of
draws suffices to leave the `while bb_p <= ma_p` loop. -/
def redrawTerminates (ma_p : ℤ) (g : ℕ → ℤ) : Prop :=
  ∃ fuel, (redraw_bb ma_p g fuel 0).isSome

/-- Python `round(q, 2)` (banker's rounding to two decimals), used for the
displayed `bb_std` / `drop_threshold` values. -/
def roundTo2 (q : ℚ) : ℚ := (roundHalfEven (q * 100) : ℚ) / 100

/-- One row of the `results_list` built by `sensitivity_analysis`
(`backtest_adjusted.py` lines 78-85): the drawn parameters (periods as
drawn, real-valued parameters rounded for display) merged with the
performance dict, whose shape is the injected `performance_func`'s concern
and is therefore a type parameter `α`. -/
structure SensRow (α : Type) where
  ma_period : ℤ
  bb_period : ℤ
  bb_std : ℚ
  drop_threshold : ℚ
  perf : α
deriving DecidableEq, Repr

/-- One trial of `sensitivity_analysis` (`backtest_adjusted.py` lines
54-85).  `ma_p`, `bb_s`, `drop_t` are the trial's draws for `ma_period`,
`bb_std`, `drop_threshold`; `g` is the oracle stream feeding the `bb_period`
re-draw loop.  `performance_of` abstracts the injected
`backtest_func` + `performance_func` composition; as in the source it
receives the *unrounded* drawn parameters, while the recorded row rounds
`bb_std` and `drop_threshold` to two decimals.  The result is `none` when
the re-draw loop is still running after `fuel` draws. -/
def sensitivity_row {α : Type} (ma_p : ℤ) (g : ℕ → ℤ) (bb_s drop_t : ℚ)
    (performance_of : ℤ → ℤ → ℚ → ℚ → α) (fuel : ℕ) : Option (SensRow α) :=
  (redraw_bb ma_p g fuel 0).map fun bb_p =>
    ⟨ma_p, bb_p, roundTo2 bb_s, roundTo2 drop_t, performance_of ma_p bb_p bb_s drop_t⟩

/-- The `results_list` of `sensitivity_analysis` over a list of per-trial
oracles (one `(ma_p, g, bb_s, drop_t)` tuple per iteration of the
`for _ in tqdm(range(iterations))` loop). -/
def sensitivity_results {α : Type} (trials : List (ℤ × (ℕ → ℤ) × ℚ × ℚ))
    (performance_of : ℤ → ℤ → ℚ → ℚ → α) (fuel : ℕ) : List (SensRow α) :=
  trials.filterMap fun t => sensitivity_row t.1 t.2.1 t.2.2.1 t.2.2.2 performance_of fuel

/-- The spec's "running maximum of EquityPoint up to that step": the maximum
of `s₀ … sᵢ`. -/
def runningMax (s : List ℚ) (i : ℕ) : ℚ := ((s.take (i + 1)).max?).getD 0

/-- The maximum-drawdown formula exactly as the spec words it (§4.2): "the
maximum, over all steps, of (running maximum of EquityPoint up to that step)
− (EquityPoint at that step)".  Stated independently of the source's
`maxdrawdown` so the two can be compared. -/
def specMaxDrawdown (s : List ℚ) : Option ℚ :=
  ((List.range s.length).map fun i => runningMax s i - s.getD i 0).max?

/-! ## Claim theorems -/

/-- C1, counterexample: on the trade list `[5, -2, 3, -1, -4, 2]` the
longest consecutive losing streak computed by the Metrics Engine is *not* 1
(the trades `-1, -4` are consecutive losers, so the scan reaches 2). -/
theorem C1_loss_streak_counterexample :
    (calculate_strategy_one_performance [5, -2, 3, -1, -4, 2]
      [0, 0, 0, 0, 0, 0]).longest_loss_streak ≠ 1 := by
  norm_num [calculate_strategy_one_performance, tradesOf, streaks, streakStep]

/-- C1 (amended): on the trade list `[5, -2, 3, -1, -4, 2]` the Metrics
Engine returns total trades 6, winning count 3 with total profit 10, losing
count 3 with total loss -7, win rate 1/2 (recorded as the string "50.00%"),
largest win 5, largest loss -4, average win 10/3, average loss -7/3,
profit/loss ratio 10/7, longest winning streak 1 and longest losing
streak 2 (not 1: the losers -1 and -4 are adjacent in the list). -/
theorem C1_scenario_metrics :
    calculate_strategy_one_performance [5, -2, 3, -1, -4, 2] [0, 0, 0, 0, 0, 0] =
      ⟨0, 3, some 0, 10, -7, 6, 3, 3, "50.00%", 5, -4, 10 / 3, -7 / 3,
        PLRatio.fin (10 / 7), 1, 2⟩ := by
  norm_num [calculate_strategy_one_performance, tradesOf, winningOf, losingOf,
    avgProfitOf, avgLossOf, streaks, streakStep, formatPercent, roundHalfEven,
    maxdrawdown, cummax, cummaxAux, List.max?, List.min?,
    PerformanceRecord.mk.injEq]
  decide

/-- C10: in both strategy variants an entry and an exit can occur on the
same step.  Strategy three with periods (1,2,3) on opens `[1,1,1,5]` /
closes `[1,2,3,1]`: bullish alignment holds at step 2, so a position is
entered at step 3's open (5) and — the exit test being evaluated after the
entry — immediately closed at step 3's close (1), recording the trade
return close₃ − open₃ = -4 at step 3 with end-of-step state Flat.  Strategy
two with periods (1,2) on opens `[1,1,1,2]` / closes `[4,2,5,6]` likewise
enters at step 3's open (2) and exits at step 3's close (6), recording
close₃ − open₃ = 4 at step 3 with end-of-step state Flat. -/
theorem C10_same_step_entry_exit :
    ((backtest_strategy_three [⟨1, 1⟩, ⟨1, 2⟩, ⟨1, 3⟩, ⟨5, 1⟩] 1 2 3).ret =
        some [0, 0, 0, 1 - 5] ∧
      (backtest_strategy_three [⟨1, 1⟩, ⟨1, 2⟩, ⟨1, 3⟩, ⟨5, 1⟩] 1 2 3).position =
        some [0, 0, 0, 0] ∧ ((1 : ℚ) - 5 ≠ 0)) ∧
    ((backtest_strategy_two [⟨1, 4⟩, ⟨1, 2⟩, ⟨1, 5⟩, ⟨2, 6⟩] 1 2).ret =
        some [0, 0, 0, 6 - 2] ∧
      (backtest_strategy_two [⟨1, 4⟩, ⟨1, 2⟩, ⟨1, 5⟩, ⟨2, 6⟩] 1 2).position =
        some [0, 0, 0, 0] ∧ ((6 : ℚ) - 2 ≠ 0)) := by
  refine ⟨⟨?_, ?_, by norm_num⟩, ⟨?_, ?_, by norm_num⟩⟩
  all_goals
    norm_num [backtest_strategy_three, strategy_three_core, backtest_strategy_two,
      strategy_two_core, maList, runSim, simStep, entryThree, exitThree, entryTwo,
      exitTwo, oLT, oGT, List.range_succ]

theorem oLT_self (a : Option ℚ) : oLT a a = false := by
  cases a <;> simp [oLT]

theorem oGT_self (a : Option ℚ) : oGT a a = false := by
  cases a <;> simp [oGT]

theorem entryTwo_self_false (m : List (Option ℚ)) (i : ℕ) : entryTwo m m i = false := by
  simp [entryTwo, oLT_self]

theorem entryThree_self_false (m l : List (Option ℚ)) (i : ℕ) :
    entryThree m m l i = false := by
  simp [entryThree, oGT_self]

/-- When the position is flat and no entry fires, a day step records a zero
row and leaves the all-zero state unchanged. -/
theorem simStep_flat_no_entry (o c : ℚ) (ex : Bool) :
    simStep o c false ex ⟨0, 0, 0⟩ = (⟨0, 0, 0⟩, ⟨0, 0, 0⟩) := by
  simp [simStep]

/-- Prepending the repeated element to a `replicate` of length `n - 1`
yields a `replicate` of length `n`, for positive `n`. -/
theorem cons_replicate_pred {α : Type} (x : α) (n : ℕ) (h : 1 ≤ n) :
    x :: List.replicate (n - 1) x = List.replicate n x := by
  cases n with
  | zero => omega
  | succ m => simp [List.replicate_succ]

/-- If the entry condition never fires, the day loop stays flat and writes
only zeros, starting from the initial all-zero state. -/
theorem runSim_no_entry (rows : List PriceRow) (en ex : ℕ → Bool)
    (hen : ∀ i, en i = false) :
    ∀ fuel i, runSim rows en ex fuel i ⟨0, 0, 0⟩ = (List.replicate fuel ⟨0, 0, 0⟩, ⟨0, 0, 0⟩) := by
  intro fuel
  induction fuel with
  | zero => intro i; simp [runSim]
  | succ n ih =>
    intro i
    simp [runSim, hen i, simStep_flat_no_entry, ih, List.replicate_succ]

/-- C2, counterexample: `backtest_strategy_two` called with a short period
equal to the long period (5 ≥ 5, a malformed config) raises nothing and
produces a position/return trajectory — simulation is not prevented. -/
theorem C2_counterexample :
    (backtest_strategy_two [⟨1, 1⟩, ⟨2, 2⟩, ⟨3, 3⟩] 5 5).position = some [0, 0, 0] ∧
    (backtest_strategy_two [⟨1, 1⟩, ⟨2, 2⟩, ⟨3, 3⟩] 5 5).ret = some [0, 0, 0] := by
  constructor <;>
    norm_num [backtest_strategy_two, strategy_two_core, maList, runSim, simStep,
      entryTwo, exitTwo, oLT, oGT, List.range_succ]

/-- C2 (amended): the Strategy Simulators perform no configuration
validation.  For a config whose short period equals the longer period —
which the spec calls malformed — both simulators run the simulation anyway
and return a trajectory; no error is raised.  (With equal periods the two
MA columns coincide, the strict cross/alignment conditions can never hold,
and the produced trajectory is all-Flat with all-zero returns.) -/
theorem C2_no_config_validation (rows : List PriceRow) (p q : ℕ)
    (h : 2 ≤ rows.length) :
    (backtest_strategy_two rows p p).position = some (List.replicate rows.length 0) ∧
    (backtest_strategy_two rows p p).ret = some (List.replicate rows.length 0) ∧
    (backtest_strategy_three rows p p q).position = some (List.replicate rows.length 0) ∧
    (backtest_strategy_three rows p p q).ret = some (List.replicate rows.length 0) := by
  have h2 : ¬ rows.length < 2 := by omega
  have hc : 1 ≤ rows.length := by omega
  have e2 : strategy_two_core rows p p =
      (List.replicate (rows.length - 1) ⟨0, 0, 0⟩, ⟨0, 0, 0⟩) := by
    unfold strategy_two_core
    exact runSim_no_entry _ _ _ (fun i => entryTwo_self_false _ i) _ 1
  have e3 : strategy_three_core rows p p q =
      (List.replicate (rows.length - 1) ⟨0, 0, 0⟩, ⟨0, 0, 0⟩) := by
    unfold strategy_three_core
    exact runSim_no_entry _ _ _ (fun i => entryThree_self_false _ _ i) _ 1
  refine ⟨?_, ?_, ?_, ?_⟩ <;>
    simp [backtest_strategy_two, backtest_strategy_three, h2, e2, e3,
      List.map_replicate, cons_replicate_pred (0 : ℕ) _ hc,
      cons_replicate_pred (0 : ℚ) _ hc]

/-- C2, witness: a concrete two-row series run with equal periods. -/
theorem C2_witness :
    (backtest_strategy_two [⟨1, 1⟩, ⟨2, 2⟩] 5 5).position = some (List.replicate 2 0) ∧
    (backtest_strategy_two [⟨1, 1⟩, ⟨2, 2⟩] 5 5).ret = some (List.replicate 2 0) ∧
    (backtest_strategy_three [⟨1, 1⟩, ⟨2, 2⟩] 5 5 10).position = some (List.replicate 2 0) ∧
    (backtest_strategy_three [⟨1, 1⟩, ⟨2, 2⟩] 5 5 10).ret = some (List.replicate 2 0) :=
  C2_no_config_validation [⟨1, 1⟩, ⟨2, 2⟩] 5 10 (by norm_num)

/-- C3, counterexample: on a one-row series the simulators return before the
trajectory columns are ever created — the output has *no* `position` (or
`ret`/`cus`) column at all, so it is not a trajectory with a Flat state and
zero values at every row. -/
theorem C3_counterexample :
    (backtest_strategy_two [⟨1, 1⟩] 5 20).position = none ∧
    (backtest_strategy_two [⟨1, 1⟩] 5 20).ret = none ∧
    (backtest_strategy_three [⟨1, 1⟩] 3 5 10).position = none ∧
    (backtest_strategy_three [⟨1, 1⟩] 3 5 10).ret = none :=
  ⟨rfl, rfl, rfl, rfl⟩

/-- C3 (amended): for every input series of length < 2 and every parameter
choice, each Strategy Simulator returns the input series unchanged, without
any trajectory columns: the `ret`, `cus`, `position` and `BH` columns are
absent (the `L < 2` early return precedes their initialisation), and the
price rows pass through unmodified.  In particular no Long state and no
non-zero return or equity value is ever produced. -/
theorem C3_short_series_no_trajectory (rows : List PriceRow) (s l m1 m2 m3 : ℕ)
    (h : rows.length < 2) :
    ((backtest_strategy_two rows s l).ret = none ∧
      (backtest_strategy_two rows s l).cus = none ∧
      (backtest_strategy_two rows s l).position = none ∧
      (backtest_strategy_two rows s l).BH = none ∧
      (backtest_strategy_two rows s l).rows = rows) ∧
    ((backtest_strategy_three rows m1 m2 m3).ret = none ∧
      (backtest_strategy_three rows m1 m2 m3).cus = none ∧
      (backtest_strategy_three rows m1 m2 m3).position = none ∧
      (backtest_strategy_three rows m1 m2 m3).BH = none ∧
      (backtest_strategy_three rows m1 m2 m3).rows = rows) := by
  refine ⟨?_, ?_⟩ <;> simp [backtest_strategy_two, backtest_strategy_three, h]

/-- C3, witness: the amended statement at a concrete one-row series. -/
theorem C3_witness :
    ((backtest_strategy_two [⟨1, 1⟩] 5 20).ret = none ∧
      (backtest_strategy_two [⟨1, 1⟩] 5 20).cus = none ∧
      (backtest_strategy_two [⟨1, 1⟩] 5 20).position = none ∧
      (backtest_strategy_two [⟨1, 1⟩] 5 20).BH = none ∧
      (backtest_strategy_two [⟨1, 1⟩] 5 20).rows = [⟨1, 1⟩]) ∧
    ((backtest_strategy_three [⟨1, 1⟩] 3 5 10).ret = none ∧
      (backtest_strategy_three [⟨1, 1⟩] 3 5 10).cus = none ∧
      (backtest_strategy_three [⟨1, 1⟩] 3 5 10).position = none ∧
      (backtest_strategy_three [⟨1, 1⟩] 3 5 10).BH = none ∧
      (backtest_strategy_three [⟨1, 1⟩] 3 5 10).rows = [⟨1, 1⟩]) :=
  C3_short_series_no_trajectory [⟨1, 1⟩] 5 20 3 5 10 (by norm_num)

/-- If every available draw is ≤ the fast period, the re-draw loop never
leaves its `while`: no fuel bound suffices. -/
theorem redraw_bb_none (ma_p : ℤ) (g : ℕ → ℤ) (hg : ∀ n, g n ≤ ma_p) :
    ∀ fuel k, redraw_bb ma_p g fuel k = none := by
  intro fuel
  induction fuel with
  | zero => intro k; simp [redraw_bb]
  | succ n ih => intro k; simp [redraw_bb, hg k, ih]

/-- If some draw within the next `fuel` draws exceeds the fast period, the
re-draw loop exits. -/
theorem redraw_bb_isSome (ma_p : ℤ) (g : ℕ → ℤ) :
    ∀ fuel k, (∃ j < fuel, ma_p < g (k + j)) → (redraw_bb ma_p g fuel k).isSome := by
  intro fuel
  induction fuel with
  | zero => intro k ⟨j, hj, _⟩; omega
  | succ n ih =>
    intro k ⟨j, hj, hgt⟩
    by_cases hk : g k ≤ ma_p
    · have hj0 : j ≠ 0 := by rintro rfl; simp at hgt; omega
      have : ∃ j' < n, ma_p < g (k + 1 + j') := ⟨j - 1, by omega, by
        have : k + 1 + (j - 1) = k + j := by omega
        rw [this]; exact hgt⟩
      simpa [redraw_bb, hk] using ih (k + 1) this
    · simp [redraw_bb, hk]

/-- Whenever the re-draw loop does produce a slow period, it exceeds the
fast period. -/
theorem redraw_bb_gt (ma_p : ℤ) (g : ℕ → ℤ) :
    ∀ fuel k b, redraw_bb ma_p g fuel k = some b → ma_p < b := by
  intro fuel
  induction fuel with
  | zero => intro k b h; simp [redraw_bb] at h
  | succ n ih =>
    intro k b h
    by_cases hk : g k ≤ ma_p
    · exact ih (k + 1) b (by simpa [redraw_bb, hk] using h)
    · have : g k = b := by simpa [redraw_bb, hk] using h
      omega

/-- C4, counterexample: with the drawn fast period 20 and a slow-period
range whose draws are all 16 (e.g. the range (16, 16), whose maximum does
not exceed 20), the harness's re-draw loop never terminates — there is no
bounded number of attempts after which it stops, and no ConfigurationError
is ever surfaced. -/
theorem C4_counterexample : ¬ redrawTerminates 20 (fun _ => 16) := by
  rintro ⟨fuel, h⟩
  rw [redraw_bb_none 20 (fun _ => 16) (fun n => by norm_num) fuel 0] at h
  simp at h

/-- C4 (amended): the re-draw loop of `sensitivity_analysis` has no attempt
bound and raises nothing.  When every draw the random source can produce is
≤ the drawn fast period (an unsatisfiable range), the loop runs forever —
after any finite number of attempts it is still running and no
ConfigurationError is surfaced; it terminates precisely when the draw
stream eventually produces a value exceeding the fast period. -/
theorem C4_redraw_loop (ma_p : ℤ) (g : ℕ → ℤ) :
    ((∀ n, g n ≤ ma_p) → ∀ fuel k, redraw_bb ma_p g fuel k = none) ∧
    (∀ n, ma_p < g n → redrawTerminates ma_p g) := by
  refine ⟨redraw_bb_none ma_p g, fun n hn => ⟨n + 1, ?_⟩⟩
  exact redraw_bb_isSome ma_p g (n + 1) 0 ⟨n, by omega, by simpa using hn⟩

/-- C4, witness: both halves of the amended statement at concrete streams —
the constant-16 stream never beats 20; a stream that draws 25 at attempt 0
terminates. -/
theorem C4_witness :
    redraw_bb 20 (fun _ => 16) 5 0 = none ∧ redrawTerminates 20 (fun _ => 25) :=
  ⟨(C4_redraw_loop 20 (fun _ => 16)).1 (fun n => by norm_num) 5 0,
   (C4_redraw_loop 20 (fun _ => 25)).2 0 (by norm_num)⟩

/-- C9: every row the harness records pairs a slow period strictly greater
than its fast period — the re-draw loop only ever exits with such a value. -/
theorem C9_slow_gt_fast {α : Type} (trials : List (ℤ × (ℕ → ℤ) × ℚ × ℚ))
    (performance_of : ℤ → ℤ → ℚ → ℚ → α) (fuel : ℕ) (row : SensRow α)
    (h : row ∈ sensitivity_results trials performance_of fuel) :
    row.ma_period < row.bb_period := by
  rcases List.mem_filterMap.mp h with ⟨t, _, ht⟩
  rcases Option.map_eq_some'.mp ht with ⟨b, hb, hrow⟩
  have := redraw_bb_gt t.1 t.2.1 fuel 0 b hb
  rw [← hrow]
  simpa using this

/-- C9, witness: a concrete one-trial harness run (fast period 3, slow
draws constantly 16) records the row (3, 16, 1, 1/2) and satisfies the
invariant. -/
theorem C9_witness :
    (⟨3, 16, 1, 1 / 2, (0 : ℚ)⟩ : SensRow ℚ).ma_period <
      (⟨3, 16, 1, 1 / 2, (0 : ℚ)⟩ : SensRow ℚ).bb_period :=
  C9_slow_gt_fast [((3 : ℤ), fun _ => (16 : ℤ), (1 : ℚ), 1 / 2)]
    (fun _ _ _ _ => (0 : ℚ)) 1 ⟨3, 16, 1, 1 / 2, 0⟩
    (by
      have h16 : ¬ ((16 : ℤ) ≤ 3) := by norm_num
      norm_num [sensitivity_results, sensitivity_row, redraw_bb, h16, roundTo2,
        roundHalfEven])

/-- Projection: the profit/loss ratio the Metrics Engine records — the
zero sentinel with no trades, `inf` when the average loss is zero,
`|avg win / avg loss|` otherwise. -/
theorem perf_plr (ret cus : List ℚ) :
    (calculate_strategy_one_performance ret cus).profit_loss_ratio =
      if (tradesOf ret).length = 0 then PLRatio.fin 0
      else if avgLossOf ret = 0 then PLRatio.inf
      else PLRatio.fin |avgProfitOf ret / avgLossOf ret| := by
  by_cases h : (tradesOf ret).length = 0 <;>
    simp [calculate_strategy_one_performance, h]

/-- Projection: the win-rate string the Metrics Engine records. -/
theorem perf_win_rate (ret cus : List ℚ) :
    (calculate_strategy_one_performance ret cus).win_rate =
      formatPercent (winRateOf ret) := by
  by_cases h : (tradesOf ret).length = 0
  · have : winRateOf ret = 0 := by simp [winRateOf, h]
    simp [calculate_strategy_one_performance, h, this, formatPercent, roundHalfEven]
    decide
  · simp [calculate_strategy_one_performance, h, winRateOf]

/-- A non-empty list of negative rationals has negative sum. -/
theorem sum_neg_of_all_neg :
    ∀ l : List ℚ, (∀ x ∈ l, x < 0) → l ≠ [] → l.sum < 0 := by
  intro l
  induction l with
  | nil => intro _ h; exact absurd rfl h
  | cons a t ih =>
    intro hall _
    have ha : a < 0 := hall a (by simp)
    cases t with
    | nil => simpa using ha
    | cons b u =>
      have ht : (b :: u).sum < 0 := ih (fun x hx => hall x (by simp [hx])) (by simp)
      simp only [List.sum_cons] at *
      linarith

/-- With at least one losing trade, the average loss is strictly negative —
so the `avg_loss == 0` test in the source can only fire when there are no
losing trades. -/
theorem avgLossOf_neg (ret : List ℚ) (h : losingOf ret ≠ []) : avgLossOf ret < 0 := by
  have hmem : ∀ x ∈ losingOf ret, x < 0 := by
    intro x hx
    have := List.mem_filter.mp hx
    simpa using this.2
  have hsum : (losingOf ret).sum < 0 := sum_neg_of_all_neg _ hmem h
  have hlen : 0 < (losingOf ret).length := List.length_pos.mpr h
  have hlenq : (0 : ℚ) < ((losingOf ret).length : ℚ) := by exact_mod_cast hlen
  rw [avgLossOf, if_pos hlen]
  exact div_neg_of_neg_of_pos hsum hlenq

/-- `avg_loss` is zero exactly when the losing-trade list is empty. -/
theorem avgLossOf_eq_zero_iff (ret : List ℚ) : avgLossOf ret = 0 ↔ losingOf ret = [] := by
  constructor
  · intro h
    by_contra hne
    exact absurd h (ne_of_lt (avgLossOf_neg ret hne))
  · intro h; simp [avgLossOf, h]

/-- A non-empty trade list with no losers must contain a winner: every
trade is non-zero, so a trade that is not negative is positive. -/
theorem winning_ne_nil_of_no_losers (ret : List ℚ) (ht : tradesOf ret ≠ [])
    (hl : losingOf ret = []) : winningOf ret ≠ [] := by
  rcases List.exists_mem_of_ne_nil _ ht with ⟨t, hmem⟩
  have htne : t ≠ 0 := by simpa using (List.mem_filter.mp hmem).2
  have htn : ¬ t < 0 := by
    intro hlt
    have : t ∈ losingOf ret := List.mem_filter.mpr ⟨hmem, by simpa using hlt⟩
    simp [hl] at this
  have htpos : 0 < t := lt_of_le_of_ne (not_lt.mp htn) (Ne.symm htne)
  have : t ∈ winningOf ret := List.mem_filter.mpr ⟨hmem, by simpa using htpos⟩
  exact List.ne_nil_of_mem this

/-- C7: the Metrics Engine's profit/loss ratio is `+inf` iff there is at
least one winning trade and no losing trade; with no trades it is the zero
sentinel, and with at least one losing trade it is the finite value
`|avg win / avg loss|`. -/
theorem C7_profit_loss_ratio (ret cus : List ℚ) :
    ((calculate_strategy_one_performance ret cus).profit_loss_ratio = PLRatio.inf ↔
      winningOf ret ≠ [] ∧ losingOf ret = []) ∧
    (tradesOf ret = [] →
      (calculate_strategy_one_performance ret cus).profit_loss_ratio = PLRatio.fin 0) ∧
    (losingOf ret ≠ [] →
      (calculate_strategy_one_performance ret cus).profit_loss_ratio =
        PLRatio.fin |avgProfitOf ret / avgLossOf ret|) := by
  rw [perf_plr]
  by_cases h : (tradesOf ret).length = 0
  · have ht : tradesOf ret = [] := List.length_eq_zero.mp h
    have hw : winningOf ret = [] := by simp [winningOf, ht]
    simp [h, hw]
    intro hl
    simp [losingOf, ht] at hl
  · have ht : tradesOf ret ≠ [] := fun hh => h (by simp [hh])
    rw [if_neg h]
    refine ⟨?_, fun hh => absurd hh ht, fun hl => ?_⟩
    · constructor
      · intro hinf
        by_cases hz : avgLossOf ret = 0
        · have hlnil := (avgLossOf_eq_zero_iff ret).mp hz
          exact ⟨winning_ne_nil_of_no_losers ret ht hlnil, hlnil⟩
        · simp [hz] at hinf
      · rintro ⟨_, hlnil⟩
        rw [if_pos ((avgLossOf_eq_zero_iff ret).mpr hlnil)]
    · rw [if_neg (fun hz => hl ((avgLossOf_eq_zero_iff ret).mp hz))]

/-- C7, witness: on the trade column `[5, -1]` the ratio is finite (there is
a loser), namely `|5 / (-1)| = 5`. -/
theorem C7_witness :
    (calculate_strategy_one_performance [5, -1] [0, 0]).profit_loss_ratio =
      PLRatio.fin |avgProfitOf [5, -1] / avgLossOf [5, -1]| :=
  (C7_profit_loss_ratio [5, -1] [0, 0]).2.2
    (by norm_num [losingOf, tradesOf])

/-- C8, counterexample: the win-rate field of the returned record is not a
number but a percent string rounded to two decimals: on the trade column
`[1, -1, -1]` (one winner out of three trades) the field is the string
"33.33%", and the value this string displays, 3333/10000, differs from the
exact ratio 1/3. -/
theorem C8_win_rate_counterexample :
    (calculate_strategy_one_performance [1, -1, -1] [0, 0, 0]).win_rate = "33.33%" ∧
    ((3333 : ℚ) / 10000 ≠ 1 / 3) := by
  constructor
  · norm_num [calculate_strategy_one_performance, tradesOf, winningOf, formatPercent,
      roundHalfEven]
    decide
  · norm_num

/-- C8 (amended): the win-rate field of the record is the percent string
(two decimal places) of the numeric win rate; the underlying numeric win
rate `winning count / total count` lies in `[0, 1]` and is `0` when the
trade count is `0`. -/
theorem C8_win_rate_bounds (ret cus : List ℚ) :
    (calculate_strategy_one_performance ret cus).win_rate =
      formatPercent (winRateOf ret) ∧
    0 ≤ winRateOf ret ∧ winRateOf ret ≤ 1 ∧
    ((tradesOf ret).length = 0 → winRateOf ret = 0) ∧
    ((tradesOf ret).length ≠ 0 →
      winRateOf ret = ((winningOf ret).length : ℚ) / ((tradesOf ret).length : ℚ)) := by
  refine ⟨perf_win_rate ret cus, ?_, ?_, fun h => by simp [winRateOf, h],
    fun h => by simp [winRateOf, h]⟩
  · rw [winRateOf]
    split
    · exact le_refl 0
    · positivity
  · rw [winRateOf]
    split
    · norm_num
    · rename_i h
      have hlen : 0 < ((tradesOf ret).length : ℚ) := by
        have : 0 < (tradesOf ret).length := Nat.pos_of_ne_zero h
        exact_mod_cast this
      rw [div_le_one hlen]
      have hle : (winningOf ret).length ≤ (tradesOf ret).length :=
        List.length_filter_le _ _
      exact_mod_cast hle

/-- C8, witness: the amended statement at the empty trade column — the
field is the zero sentinel string and the numeric rate is 0. -/
theorem C8_witness :
    (calculate_strategy_one_performance [] []).win_rate = formatPercent (winRateOf []) ∧
    winRateOf [] = 0 :=
  ⟨(C8_win_rate_bounds [] []).1,
   (C8_win_rate_bounds [] []).2.2.2.1 (by norm_num [tradesOf])⟩

theorem cummaxAux_length : ∀ (xs : List ℚ) (m : ℚ), (cummaxAux m xs).length = xs.length := by
  intro xs
  induction xs with
  | nil => intro m; rfl
  | cons a t ih => intro m; simp [cummaxAux, ih]

theorem cummax_length (s : List ℚ) : (cummax s).length = s.length := by
  cases s with
  | nil => rfl
  | cons a t => simp [cummax, cummaxAux_length]

/-- Element `i` of the running maximum continued from `m` is the maximum of
`m` and the first `i + 1` elements. -/
theorem cummaxAux_getD : ∀ (xs : List ℚ) (m : ℚ) (i : ℕ), i < xs.length →
    (cummaxAux m xs).getD i 0 = (xs.take (i + 1)).foldl max m := by
  intro xs
  induction xs with
  | nil => intro m i h; simp at h
  | cons a t ih =>
    intro m i h
    cases i with
    | zero => simp [cummaxAux]
    | succ n =>
      simp only [cummaxAux, List.getD_cons_succ, List.take_succ_cons, List.foldl_cons]
      exact ih (max m a) n (by simpa using h)

/-- Element `i` of pandas `cummax` is the spec's running maximum up to
step `i`. -/
theorem cummax_getD (s : List ℚ) (i : ℕ) (h : i < s.length) :
    (cummax s).getD i 0 = runningMax s i := by
  cases s with
  | nil => simp at h
  | cons a t =>
    rw [runningMax]
    cases i with
    | zero => simp [cummax, List.max?]
    | succ n =>
      simp only [cummax, List.getD_cons_succ, List.take_succ_cons, List.max?]
      exact cummaxAux_getD t a n (by simpa using h)

/-- The source's `maxdrawdown` equals the spec's formula: the maximum over
all steps of (running maximum up to the step) − (equity at the step). -/
theorem maxdrawdown_eq_spec (s : List ℚ) : maxdrawdown s = specMaxDrawdown s := by
  rw [maxdrawdown, specMaxDrawdown]
  congr 1
  apply List.ext_getElem
  · simp [cummax_length]
  · intro i h1 h2
    have hi : i < s.length := by
      simpa [cummax_length] using h1
    have hc : i < (cummax s).length := by simpa [cummax_length] using hi
    simp only [List.getElem_zipWith, List.getElem_map, List.getElem_range]
    rw [← List.getD_eq_getElem (cummax s) 0 hc, ← List.getD_eq_getElem s 0 hi,
      cummax_getD s i hi]

/-- Every entry of the drawdown series `cummax − s` is non-negative. -/
theorem zip_diff_nonneg : ∀ (xs : List ℚ) (m : ℚ) (x : ℚ),
    x ∈ List.zipWith (fun a b => a - b) (cummaxAux m xs) xs → 0 ≤ x := by
  intro xs
  induction xs with
  | nil => intro m x h; simp at h
  | cons a t ih =>
    intro m x h
    simp only [cummaxAux, List.zipWith_cons_cons, List.mem_cons] at h
    rcases h with rfl | h
    · exact sub_nonneg.mpr (le_max_right m a)
    · exact ih (max m a) x h

/-- The source's maximum drawdown, when defined, is non-negative. -/
theorem maxdrawdown_nonneg (s : List ℚ) (m : ℚ) (h : maxdrawdown s = some m) :
    0 ≤ m := by
  have hmem : m ∈ List.zipWith (fun a b => a - b) (cummax s) s :=
    List.max?_mem (fun a b => max_choice a b) h
  cases s with
  | nil => simp [cummax] at hmem
  | cons a t =>
    simp only [cummax, List.zipWith_cons_cons, List.mem_cons] at hmem
    rcases hmem with rfl | hmem
    · simp
    · exact zip_diff_nonneg t a m hmem

/-- On a non-decreasing tail the running maximum just reproduces the tail. -/
theorem cummaxAux_of_chain : ∀ (xs : List ℚ) (m : ℚ),
    List.Chain' (· ≤ ·) (m :: xs) → cummaxAux m xs = xs := by
  intro xs
  induction xs with
  | nil => intro m _; rfl
  | cons a t ih =>
    intro m hch
    rcases List.chain'_cons.mp hch with ⟨hma, hat⟩
    have hmax : max m a = a := max_eq_right hma
    simp only [cummaxAux, hmax]
    rw [ih a hat]

/-- `cummax` of a non-decreasing series is the series itself. -/
theorem cummax_of_chain (s : List ℚ) (h : List.Chain' (· ≤ ·) s) : cummax s = s := by
  cases s with
  | nil => rfl
  | cons a t => simp only [cummax]; rw [cummaxAux_of_chain t a h]

theorem zipWith_sub_self (s : List ℚ) :
    List.zipWith (fun a b => a - b) s s = List.replicate s.length 0 := by
  induction s with
  | nil => rfl
  | cons a t ih => simp [ih, List.replicate_succ]

theorem foldl_max_replicate_zero : ∀ n : ℕ, (List.replicate n (0 : ℚ)).foldl max 0 = 0 := by
  intro n
  induction n with
  | zero => rfl
  | succ k ih => simpa [List.replicate_succ] using ih

/-- On a non-empty, non-decreasing equity curve the source's maximum
drawdown is exactly 0. -/
theorem maxdrawdown_of_chain (s : List ℚ) (hs : s ≠ [])
    (h : List.Chain' (· ≤ ·) s) : maxdrawdown s = some 0 := by
  rw [maxdrawdown, cummax_of_chain s h, zipWith_sub_self]
  cases s with
  | nil => exact absurd rfl hs
  | cons a t =>
    simp only [List.length_cons, List.replicate_succ, List.max?]
    rw [foldl_max_replicate_zero]

/-- Projection: the `最大回撤 (MDD)` field is `maxdrawdown` of the `cus`
column in both branches of the Metrics Engine. -/
theorem perf_mdd (ret cus : List ℚ) :
    (calculate_strategy_one_performance ret cus).mdd = maxdrawdown cus := by
  by_cases h : (tradesOf ret).length = 0 <;>
    simp [calculate_strategy_one_performance, h]

/-- C6: for every equity column, the Metrics Engine's maximum drawdown
equals the spec formula — the maximum over all steps of (running maximum of
equity up to the step) minus (equity at the step) — it is non-negative
whenever defined, and it is 0 on every non-empty non-decreasing equity
curve. -/
theorem C6_max_drawdown (ret cus : List ℚ) :
    (calculate_strategy_one_performance ret cus).mdd = specMaxDrawdown cus ∧
    (∀ m, (calculate_strategy_one_performance ret cus).mdd = some m → 0 ≤ m) ∧
    (cus ≠ [] → List.Chain' (· ≤ ·) cus →
      (calculate_strategy_one_performance ret cus).mdd = some 0) := by
  rw [perf_mdd]
  exact ⟨maxdrawdown_eq_spec cus, fun m h => maxdrawdown_nonneg cus m h,
    fun hne hch => maxdrawdown_of_chain cus hne hch⟩

/-- C6, witness: the non-decreasing concrete curve `[1, 2]` has maximum
drawdown exactly 0. -/
theorem C6_witness : (calculate_strategy_one_performance [] [1, 2]).mdd = some 0 :=
  (C6_max_drawdown [] [1, 2]).2.2 (List.cons_ne_nil _ _)
    (by norm_num [List.chain'_cons, List.chain'_singleton])

/-- Per-day bookkeeping facts: the recorded `ret` cell is the day's change
in cumulative realized return, the recorded `position` cell is the
end-of-day state, and the recorded `cus` cell is the cumulative realized
return plus the unrealized value (close − cost) of a still-open position. -/
theorem simStep_spec (o c : ℚ) (den dex : Bool) (st : SimState) :
    (simStep o c den dex st).1.ret =
      (simStep o c den dex st).2.cum_ret - st.cum_ret ∧
    (simStep o c den dex st).1.pos = (simStep o c den dex st).2.position ∧
    (simStep o c den dex st).1.cus = (simStep o c den dex st).2.cum_ret +
      (if (simStep o c den dex st).2.position = 1 then
        c - (simStep o c den dex st).2.avg_cost else 0) := by
  simp only [simStep]
  split_ifs <;> simp_all

/-- A cons list whose tail is non-empty has the tail's last element. -/
theorem getLast?_cons_of_ne_nil {α : Type} (a : α) (l : List α) (h : l ≠ []) :
    (a :: l).getLast? = l.getLast? := by
  cases l with
  | nil => exact absurd rfl h
  | cons b t => rfl

/-- Zero entries do not contribute: the sum of the non-zero entries of a
rational list is the sum of the list. -/
theorem sum_filter_ne_zero : ∀ l : List ℚ, (l.filter (· ≠ 0)).sum = l.sum := by
  intro l
  induction l with
  | nil => rfl
  | cons a t ih =>
    rw [List.filter_cons]
    by_cases ha : a = 0
    · rw [if_neg (by simp [ha]), ih, List.sum_cons, ha, zero_add]
    · rw [if_pos (by simp [ha]), List.sum_cons, ih, List.sum_cons]

/-- Loop invariant of the strategies' day loop: the day cells of `fuel`
iterations starting at day `i` from state `st` satisfy (a) there is one
record per iteration, (b) the recorded returns sum to the total change in
cumulative realized return, and (c) the last recorded position is the final
state's position and the last recorded equity is the final cumulative
realized return plus the final unrealized open-position value at the last
processed day's close. -/
theorem runSim_spec (rows : List PriceRow) (en ex : ℕ → Bool) :
    ∀ (fuel i : ℕ) (st : SimState),
      (runSim rows en ex fuel i st).1.length = fuel ∧
      ((runSim rows en ex fuel i st).1.map (·.ret)).sum =
        (runSim rows en ex fuel i st).2.cum_ret - st.cum_ret ∧
      (0 < fuel →
        ((runSim rows en ex fuel i st).1.map (·.pos)).getLast? =
          some (runSim rows en ex fuel i st).2.position ∧
        ((runSim rows en ex fuel i st).1.map (·.cus)).getLast? =
          some ((runSim rows en ex fuel i st).2.cum_ret +
            (if (runSim rows en ex fuel i st).2.position = 1 then
              (rows.getD (i + fuel - 1) ⟨0, 0⟩).close_price -
                (runSim rows en ex fuel i st).2.avg_cost
             else 0))) := by
  intro fuel
  induction fuel with
  | zero => intro i st; refine ⟨rfl, by simp [runSim], fun h => absurd h (by omega)⟩
  | succ n ih =>
    intro i st
    set s := simStep (rows.getD i ⟨0, 0⟩).open_price (rows.getD i ⟨0, 0⟩).close_price
      (en i) (ex i) st with hs
    have hrun : runSim rows en ex (n + 1) i st =
        (s.1 :: (runSim rows en ex n (i + 1) s.2).1,
         (runSim rows en ex n (i + 1) s.2).2) := by
      simp [runSim, hs]
    obtain ⟨ihlen, ihsum, ihlast⟩ := ih (i + 1) s.2
    obtain ⟨hret, hpos, hcus⟩ := simStep_spec (rows.getD i ⟨0, 0⟩).open_price
      (rows.getD i ⟨0, 0⟩).close_price (en i) (ex i) st
    refine ⟨?_, ?_, fun _ => ?_⟩
    · rw [hrun]; simp [ihlen]
    · rw [hrun]
      simp only [List.map_cons, List.sum_cons, ihsum]
      rw [← hs] at hret
      rw [hret]
      ring
    · rcases Nat.eq_zero_or_pos n with rfl | hn
      · have hnil : (runSim rows en ex 0 (i + 1) s.2).1 = [] := rfl
        have hst : (runSim rows en ex 0 (i + 1) s.2).2 = s.2 := rfl
        rw [hrun]
        simp only [hnil, hst, List.map_cons, List.map_nil, List.getLast?_singleton]
        have hidx : i + (0 + 1) - 1 = i := by omega
        rw [← hs] at hpos hcus
        exact ⟨by rw [hpos], by rw [hcus, hidx]⟩
      · have hne : (runSim rows en ex n (i + 1) s.2).1 ≠ [] := by
          intro hh
          rw [hh] at ihlen
          simp at ihlen
          omega
        have hmapne : ∀ (f : StepRec → ℚ),
            ((runSim rows en ex n (i + 1) s.2).1.map f) ≠ [] := by
          intro f hh
          exact hne (List.map_eq_nil_iff.mp hh)
        have hmapne' : ((runSim rows en ex n (i + 1) s.2).1.map (·.pos)) ≠ [] := by
          intro hh
          exact hne (List.map_eq_nil_iff.mp hh)
        obtain ⟨hl1, hl2⟩ := ihlast hn
        have hidx : i + 1 + n - 1 = i + (n + 1) - 1 := by omega
        rw [hrun]
        constructor
        · rw [List.map_cons, getLast?_cons_of_ne_nil _ _ hmapne', hl1]
        · rw [List.map_cons, getLast?_cons_of_ne_nil _ _ (hmapne (·.cus)), hl2, hidx]

/-- Bridge from the loop invariant to a backtest's output columns: with at
least two rows, the last `cus` cell equals the sum of the non-zero `ret`
cells plus the unrealized value of a position still open at the last row
(zero if flat), and the last `position` cell is the final loop state's
position. -/
theorem final_equity_generic (rows : List PriceRow) (en ex : ℕ → Bool)
    (h : 2 ≤ rows.length) :
    ((0 : ℚ) :: (runSim rows en ex (rows.length - 1) 1 ⟨0, 0, 0⟩).1.map (·.cus)).getLast? =
      some ((((0 : ℚ) :: (runSim rows en ex (rows.length - 1) 1 ⟨0, 0, 0⟩).1.map
          (·.ret)).filter (· ≠ 0)).sum +
        (if (runSim rows en ex (rows.length - 1) 1 ⟨0, 0, 0⟩).2.position = 1 then
          (rows.getD (rows.length - 1) ⟨0, 0⟩).close_price -
            (runSim rows en ex (rows.length - 1) 1 ⟨0, 0, 0⟩).2.avg_cost
         else 0)) ∧
    ((0 : ℕ) :: (runSim rows en ex (rows.length - 1) 1 ⟨0, 0, 0⟩).1.map (·.pos)).getLast? =
      some (runSim rows en ex (rows.length - 1) 1 ⟨0, 0, 0⟩).2.position := by
  obtain ⟨hlen, hsum, hlast⟩ := runSim_spec rows en ex (rows.length - 1) 1 ⟨0, 0, 0⟩
  have hfuel : 0 < rows.length - 1 := by omega
  obtain ⟨hl1, hl2⟩ := hlast hfuel
  have hne : (runSim rows en ex (rows.length - 1) 1 ⟨0, 0, 0⟩).1 ≠ [] := by
    intro hh
    rw [hh] at hlen
    simp at hlen
    omega
  have hnec : (runSim rows en ex (rows.length - 1) 1 ⟨0, 0, 0⟩).1.map (·.cus) ≠ [] :=
    fun hh => hne (List.map_eq_nil_iff.mp hh)
  have hnep : (runSim rows en ex (rows.length - 1) 1 ⟨0, 0, 0⟩).1.map (·.pos) ≠ [] :=
    fun hh => hne (List.map_eq_nil_iff.mp hh)
  have hidx : 1 + (rows.length - 1) - 1 = rows.length - 1 := by omega
  have hfs : (((0 : ℚ) :: (runSim rows en ex (rows.length - 1) 1 ⟨0, 0, 0⟩).1.map
      (·.ret)).filter (· ≠ 0)).sum =
      (runSim rows en ex (rows.length - 1) 1 ⟨0, 0, 0⟩).2.cum_ret := by
    rw [sum_filter_ne_zero, List.sum_cons, zero_add, hsum]
    simp
  constructor
  · rw [getLast?_cons_of_ne_nil _ _ hnec, hl2, hidx, hfs]
  · rw [getLast?_cons_of_ne_nil _ _ hnep, hl1]

/-- C5: for either strategy on a series of length ≥ 2, the equity value at
the last row equals the sum of all non-zero realized trade returns plus the
unrealized value (last close minus the held entry cost) of a position still
open at the last row, or plus zero if the final position state is Flat; and
the last recorded position is the final loop state's position. -/
theorem C5_final_equity (rows : List PriceRow) (s l m1 m2 m3 : ℕ)
    (h : 2 ≤ rows.length) :
    (((backtest_strategy_two rows s l).cus.getD []).getLast? =
        some ((((backtest_strategy_two rows s l).ret.getD []).filter (· ≠ 0)).sum +
          (if (strategy_two_core rows s l).2.position = 1 then
            (rows.getD (rows.length - 1) ⟨0, 0⟩).close_price -
              (strategy_two_core rows s l).2.avg_cost
           else 0)) ∧
      ((backtest_strategy_two rows s l).position.getD []).getLast? =
        some (strategy_two_core rows s l).2.position) ∧
    (((backtest_strategy_three rows m1 m2 m3).cus.getD []).getLast? =
        some ((((backtest_strategy_three rows m1 m2 m3).ret.getD []).filter (· ≠ 0)).sum +
          (if (strategy_three_core rows m1 m2 m3).2.position = 1 then
            (rows.getD (rows.length - 1) ⟨0, 0⟩).close_price -
              (strategy_three_core rows m1 m2 m3).2.avg_cost
           else 0)) ∧
      ((backtest_strategy_three rows m1 m2 m3).position.getD []).getLast? =
        some (strategy_three_core rows m1 m2 m3).2.position) := by
  have h2 : ¬ rows.length < 2 := by omega
  constructor
  · have hc : strategy_two_core rows s l =
        runSim rows
          (entryTwo (maList s (rows.map (·.close_price))) (maList l (rows.map (·.close_price))))
          (exitTwo rows (maList s (rows.map (·.close_price))))
          (rows.length - 1) 1 ⟨0, 0, 0⟩ := rfl
    obtain ⟨g1, g2⟩ := final_equity_generic rows
      (entryTwo (maList s (rows.map (·.close_price))) (maList l (rows.map (·.close_price))))
      (exitTwo rows (maList s (rows.map (·.close_price)))) h
    simp only [backtest_strategy_two, h2, if_false, Option.getD_some]
    rw [hc]
    exact ⟨g1, g2⟩
  · have hc : strategy_three_core rows m1 m2 m3 =
        runSim rows
          (entryThree (maList m1 (rows.map (·.close_price)))
            (maList m2 (rows.map (·.close_price))) (maList m3 (rows.map (·.close_price))))
          (exitThree (maList m1 (rows.map (·.close_price)))
            (maList m2 (rows.map (·.close_price))))
          (rows.length - 1) 1 ⟨0, 0, 0⟩ := rfl
    obtain ⟨g1, g2⟩ := final_equity_generic rows
      (entryThree (maList m1 (rows.map (·.close_price)))
        (maList m2 (rows.map (·.close_price))) (maList m3 (rows.map (·.close_price))))
      (exitThree (maList m1 (rows.map (·.close_price)))
        (maList m2 (rows.map (·.close_price)))) h
    simp only [backtest_strategy_three, h2, if_false, Option.getD_some]
    rw [hc]
    exact ⟨g1, g2⟩

/-- C5, witness: the accounting identity at a concrete two-row series. -/
theorem C5_witness :
    (((backtest_strategy_two [⟨1, 2⟩, ⟨3, 4⟩] 1 2).cus.getD []).getLast? =
        some ((((backtest_strategy_two [⟨1, 2⟩, ⟨3, 4⟩] 1 2).ret.getD []).filter
            (· ≠ 0)).sum +
          (if (strategy_two_core [⟨1, 2⟩, ⟨3, 4⟩] 1 2).2.position = 1 then
            (([⟨1, 2⟩, ⟨3, 4⟩] : List PriceRow).getD
                (([⟨1, 2⟩, ⟨3, 4⟩] : List PriceRow).length - 1) ⟨0, 0⟩).close_price -
              (strategy_two_core [⟨1, 2⟩, ⟨3, 4⟩] 1 2).2.avg_cost
           else 0)) ∧
      ((backtest_strategy_two [⟨1, 2⟩, ⟨3, 4⟩] 1 2).position.getD []).getLast? =
        some (strategy_two_core [⟨1, 2⟩, ⟨3, 4⟩] 1 2).2.position) ∧
    (((backtest_strategy_three [⟨1, 2⟩, ⟨3, 4⟩] 1 2 3).cus.getD []).getLast? =
        some ((((backtest_strategy_three [⟨1, 2⟩, ⟨3, 4⟩] 1 2 3).ret.getD []).filter
            (· ≠ 0)).sum +
          (if (strategy_three_core [⟨1, 2⟩, ⟨3, 4⟩] 1 2 3).2.position = 1 then
            (([⟨1, 2⟩, ⟨3, 4⟩] : List PriceRow).getD
                (([⟨1, 2⟩, ⟨3, 4⟩] : List PriceRow).length - 1) ⟨0, 0⟩).close_price -
              (strategy_three_core [⟨1, 2⟩, ⟨3, 4⟩] 1 2 3).2.avg_cost
           else 0)) ∧
      ((backtest_strategy_three [⟨1, 2⟩, ⟨3, 4⟩] 1 2 3).position.getD []).getLast? =
        some (strategy_three_core [⟨1, 2⟩, ⟨3, 4⟩] 1 2 3).2.position) :=
  C5_final_equity [⟨1, 2⟩, ⟨3, 4⟩] 1 2 1 2 3 (by norm_num)
